import Mathlib

/-! ## Generic character-list utilities -/

/-- Split a character list at every character satisfying `p`, keeping the
(possibly empty) segments between separators.  `splitBy p cs` always returns
at least one segment; a trailing separator yields a trailing empty segment.
This is the semantic notion of "lines of a file" used throughout. -/
def splitBy (p : Char → Bool) : List Char → List (List Char)
  | [] => [[]]
  | c :: cs =>
    match splitBy p cs with
    | [] => [[]]
    | l :: ls => if p c then [] :: l :: ls else (c :: l) :: ls

/-- Does `s` occur as a contiguous prefix of `l`? -/
def hasSeqAtStart : List Char → List Char → Bool
  | [], _ => true
  | _ :: _, [] => false
  | a :: s, b :: l => decide (a = b) && hasSeqAtStart s l

/-- Does `s` occur as a contiguous subsequence (substring) of `l`?  This is the
semantics of the viewer's literal regex alternatives. -/
def hasSeq (s : List Char) : List Char → Bool
  | [] => decide (s = [])
  | l@(_ :: rest) => hasSeqAtStart s l || hasSeq s rest

/-! ## Decimal rendering of integers (Python `str(int)` / f-string interpolation) -/

def digitChar (n : Nat) : Char :=
  if n = 0 then '0' else if n = 1 then '1' else if n = 2 then '2'
  else if n = 3 then '3' else if n = 4 then '4' else if n = 5 then '5'
  else if n = 6 then '6' else if n = 7 then '7' else if n = 8 then '8' else '9'

/-- Decimal digits of a natural number, most significant first; fueled
structural recursion so the kernel can evaluate it. -/
def natDigitsAux : Nat → Nat → List Char
  | 0, _ => []
  | fuel + 1, n =>
    if n < 10 then [digitChar n] else natDigitsAux fuel (n / 10) ++ [digitChar (n % 10)]

def natDigits (n : Nat) : List Char := natDigitsAux (n + 1) n

/-- Python `str` of an `int` (as interpolated into f-strings). -/
def intStr (i : Int) : List Char :=
  if i < 0 then '-' :: natDigits i.natAbs else natDigits i.natAbs

/-! ## `extract_command_name` (src/ecco.py lines 17-56)

Python `str` operations and `pathlib` (Windows flavour, matching the tool's
platform: `conhost`/`powershell.exe`) are modelled on `List Char`. -/

/-- ASCII model of Python `str.isspace` / regex `\s`. -/
def pyIsSpace (c : Char) : Bool :=
  decide (c = ' ' ∨ c = '\t' ∨ c = '\n' ∨ c = '\r' ∨ c = '\x0b' ∨ c = '\x0c')

/-- Python `str.strip()` (line 34): remove leading and trailing whitespace. -/
def pyStrip (s : List Char) : List Char :=
  ((s.dropWhile pyIsSpace).reverse.dropWhile pyIsSpace).reverse

/-- Model of the regex split at line 38 (split once on whitespace, pipe or
semicolon, keeping the first piece): the characters before the first
whitespace, pipe or semicolon. -/
def firstToken (s : List Char) : List Char :=
  s.takeWhile fun c => !(pyIsSpace c || decide (c = '|') || decide (c = ';'))

/-- Windows path separators recognised by `pathlib`. -/
def isSepChar (c : Char) : Bool := decide (c = '/' ∨ c = '\\')

/-- Strip a leading `X:` drive marker (Windows `pathlib` drive parsing;
UNC prefixes are treated as ordinary separators here). -/
def stripDrive (s : List Char) : List Char :=
  match s with
  | a :: ':' :: rest => if a.isAlpha then rest else s
  | _ => s

/-- The non-empty, non-`"."` path components of a path string, in order
(`pathlib` drops empty and `.` components; `..` is kept). -/
def pathComponents (s : List Char) : List (List Char) :=
  (splitBy isSepChar (stripDrive s)).filter fun c => !(decide (c = []) || decide (c = ['.']))

/-- Model of `Path(s).name` (line 41): the final path component, `[]` if there is none. -/
def pathName (s : List Char) : List Char :=
  (pathComponents s).getLast?.getD []

/-- Model of `Path(s).stem` (line 44): the name with its suffix removed; the suffix is
the part from the last `'.'` when that dot is neither the first nor the last
character of the name. -/
def pathStem (s : List Char) : List Char :=
  let n := pathName s
  let r := n.reverse
  let afterDot := r.takeWhile fun c => !decide (c = '.')
  if afterDot.length = r.length then n
  else if afterDot ≠ [] ∧ r.drop (afterDot.length + 1) ≠ [] then
    (r.drop (afterDot.length + 1)).reverse
  else n

/-- The character class `[a-zA-Z0-9_-]` kept by the sanitiser (line 47). -/
def goodChar (c : Char) : Bool :=
  c.isAlpha || c.isDigit || decide (c = '_') || decide (c = '-')

/-- Model of the substitution at line 47: every character outside the kept
class is replaced by an underscore. -/
def sanitizeChars (s : List Char) : List Char :=
  s.map fun c => if goodChar c then c else '_'

/-- Python `str.strip('_')` (line 50): remove leading and trailing underscores. -/
def stripUnderscores (s : List Char) : List Char :=
  ((s.dropWhile fun c => decide (c = '_')).reverse.dropWhile fun c => decide (c = '_')).reverse

/-- Lines 34-38: stripped command, then its first token. -/
def tokenStage (command : List Char) : List Char := firstToken (pyStrip command)

/-- Lines 41-44: `Path(first_token).name`, then `.stem` when it contains a dot. -/
def nameStage (command : List Char) : List Char :=
  let n := pathName (tokenStage command)
  if '.' ∈ n then pathStem n else n

/-- Lines 47-50: sanitise, truncate to 30 characters, strip underscores. -/
def safeStage (command : List Char) : List Char :=
  stripUnderscores ((sanitizeChars (nameStage command)).take 30)

/-- The function `extract_command_name` (lines 17-56). -/
def extract_command_name (command : List Char) : List Char :=
  if safeStage command = [] then "command".toList else safeStage command

/-! ## Log path resolution and argument dispatch (lines 58-85, 207-231) -/

/-- Does the rest of a path (after a leading drive letter) start with `':'`? -/
def isDriveRest (l : List Char) : Bool :=
  match l with
  | c :: _ => decide (c = ':')
  | [] => false

/-- Is the path absolute (rooted or drive-letter qualified)?  Used to model
`Path.resolve()` without a filesystem. -/
def isAbsolutePath (p : List Char) : Bool :=
  match p with
  | [] => false
  | c :: rest => decide (c = '/' ∨ c = '\\') || (c.isAlpha && isDriveRest rest)

/-- Model of `Path(p).resolve()` against a current working directory: an absolute path
is kept, a relative one is anchored at `cwd` (symlink/`..` normalisation is
not modelled). -/
def resolvePath (cwd p : List Char) : List Char :=
  if isAbsolutePath p then p else cwd ++ '\\' :: p

/-- The synthesized filename of line 84 (an f-string interpolating the derived
command name and the timestamp into the fixed log-name shape). -/
def log_filename (command ts : List Char) : List Char :=
  "log_".toList ++ extract_command_name command ++ "_".toList ++ ts ++ ".log".toList

/-- Lines 70-85: the resolved log file path.  `log_file` takes precedence;
otherwise a filename is synthesized inside the (resolved) folder, `"."` when
no folder was given. -/
def logFilePathFor (cwd command ts : List Char)
    (log_folder log_file : Option (List Char)) : List Char :=
  match log_file with
  | some f => resolvePath cwd f
  | none =>
    resolvePath cwd
      (resolvePath cwd (match log_folder with | some d => d | none => ".".toList)
        ++ '\\' :: log_filename command ts)

/-- Lines 222-230: the optional second argument becomes `(log_folder, log_file)`;
it is a log file exactly when its final path segment contains a dot. -/
def parseArgs (arg : Option (List Char)) : Option (List Char) × Option (List Char) :=
  match arg with
  | none => (none, none)
  | some lp => if '.' ∈ pathName lp then (none, some lp) else (some lp, none)

/-! ## Log file content (lines 90-106, 174-197) -/

/-- Lines of a text: split at every `'\n'`. -/
def splitLines (cs : List Char) : List (List Char) :=
  splitBy (fun c => decide (c = '\n')) cs

/-- The 50-character delimiter line written as a string repetition in the code. -/
def eqLine : List Char := List.replicate 50 '='

/-- Python file-iteration line count (line 95, `sum(1 for _ in f)`): one line
per `'\n'`, plus one for a non-empty unterminated tail. -/
def countFileLines (cs : List Char) : Nat :=
  cs.count '\n' + (if cs ≠ [] ∧ cs.getLast? ≠ some '\n' then 1 else 0)

/-- Lines 90-98: the skip offset.  `preContent` is the log file's content
before this run (`none` when the file does not exist); `readOk` is whether the
counting read succeeds (line 97 catches its exceptions, leaving the count 0). -/
def initial_line_count (preContent : Option (List Char)) (readOk : Bool) : Nat :=
  match preContent with
  | none => 0
  | some cs => if readOk then countFileLines cs else 0

/-- The header block appended at lines 101-106. -/
def headerText (command logPath ts : List Char) : List Char :=
  ("=== Executing PowerShell Command ===".toList ++ ['\n'])
  ++ ("Command: ".toList ++ command ++ ['\n'])
  ++ ("Log: ".toList ++ logPath ++ ['\n'])
  ++ ("Started: ".toList ++ ts ++ ['\n'])
  ++ (eqLine ++ ['\n', '\n'])

/-- The sentinel line chosen at lines 194-197. -/
def sentinelLineOf (rc : Int) : List Char :=
  if rc = 0 then "[SUCCESS] Command completed successfully.".toList
  else "[ERROR] Command failed with exit code ".toList ++ intStr rc ++ ['.']

/-- The footer block appended at lines 184-197. -/
def footerText (rc : Int) (endTs : List Char) : List Char :=
  ['\n', '\n']
  ++ (eqLine ++ ['\n'])
  ++ ("=== Execution completed ===".toList ++ ['\n'])
  ++ ("Ended: ".toList ++ endTs ++ ['\n'])
  ++ ("Exit code: ".toList ++ intStr rc ++ ['\n'])
  ++ (eqLine ++ ['\n'])
  ++ ('\n' :: sentinelLineOf rc ++ ['\n'])

/-- The streaming loop (lines 174-179): `iter(stdout.readline, '')` yields
each element until the first empty read (EOF sentinel); every yielded line is
written verbatim (`if line:` skips nothing further since reads before EOF are
non-empty). -/
def streamOutput : List (List Char) → List Char
  | [] => []
  | l :: rest => if l = [] then [] else l ++ streamOutput rest

/-! ## Sentinel detection (the viewer's regex at line 124) -/

/-- Does a line contain the literal `[SUCCESS]`? -/
def isSuccessLine (l : List Char) : Bool := hasSeq "[SUCCESS]".toList l

/-- Does a line contain the literal `[ERROR]`? -/
def isErrorLine (l : List Char) : Bool := hasSeq "[ERROR]".toList l

/-- The viewer's completion pattern `\[SUCCESS\]|\[ERROR\]`. -/
def isSentinelLine (l : List Char) : Bool := isSuccessLine l || isErrorLine l

/-! ## The orchestrating run (lines 58-205) and `__main__` (lines 207-233) -/

/-- One run's external circumstances: arguments, clock values, filesystem
state, and the child process's behaviour. -/
structure Env where
  cwd : List Char
  command : List Char
  log_folder : Option (List Char)
  log_file : Option (List Char)
  /-- Value of `datetime.now().strftime("%Y%m%d_%H%M%S")` at line 68. -/
  timestamp : List Char
  /-- Value of `end_time.strftime(...)` at lines 185-190. -/
  endTimestamp : List Char
  /-- Content of the log file before the run; `none` when absent. -/
  preContent : Option (List Char)
  /-- Whether the line-counting read at lines 94-95 succeeds. -/
  readOk : Bool
  /-- The exception text printed when it does not. -/
  readErrMsg : List Char
  /-- Whether `subprocess.Popen` for the viewer (line 145) succeeds. -/
  viewerSpawnOk : Bool
  /-- Whether `subprocess.Popen` for the command (line 160) succeeds. -/
  commandSpawnOk : Bool
  /-- The child's merged-output lines as returned by `readline`. -/
  childLines : List (List Char)
  /-- The child's exit code. -/
  childExit : Int
deriving Repr, DecidableEq

def execMsg (cmd : List Char) : List Char := "Executing command: ".toList ++ cmd

def logFileMsg (p : List Char) : List Char := "Log file: ".toList ++ p

def appendingMsg (k : Nat) : List Char :=
  "Appending to existing log (".toList ++ natDigits k ++ " existing lines)".toList

def countWarningMsg (e : List Char) : List Char :=
  "Warning: Could not count existing lines: ".toList ++ e

def viewerOpenedMsg : List Char :=
  "Log viewer console opened. Starting command execution...".toList

def completedMsg (rc : Int) : List Char :=
  "Completed with exit code: ".toList ++ intStr rc

/-- The log bytes already on disk when the run starts. -/
def preBytes (env : Env) : List Char :=
  match env.preContent with
  | none => []
  | some cs => cs

/-- The resolved log path of a run (lines 70-85). -/
def logPathOf (env : Env) : List Char :=
  logFilePathFor env.cwd env.command env.timestamp env.log_folder env.log_file

/-- Console output of the line-counting block (lines 90-98). -/
def countConsole (env : Env) : List (List Char) :=
  match env.preContent with
  | none => []
  | some _ =>
    if env.readOk then [appendingMsg (initial_line_count env.preContent env.readOk)]
    else [countWarningMsg env.readErrMsg]

/-- Console output up to and including the counting block (lines 87-98). -/
def preConsole (env : Env) : List (List Char) :=
  [execMsg env.command, logFileMsg (logPathOf env)] ++ countConsole env

/-- The log file content after the header block is appended (lines 101-106). -/
def logAfterHeader (env : Env) : List Char :=
  preBytes env ++ headerText env.command (logPathOf env) env.timestamp

/-- The log file content at the end of a completed run: pre-existing bytes,
header, streamed child output, footer. -/
def finalLog (env : Env) : List Char :=
  logAfterHeader env ++ streamOutput env.childLines
    ++ footerText env.childExit env.endTimestamp

/-- Everything a completed `run_command_with_viewer` produced. -/
structure RunResult where
  logPath : List Char
  /-- The `initial_line_count` interpolated into the viewer command (line 122). -/
  viewerSkip : Nat
  log : List Char
  console : List (List Char)
  /-- The value returned at line 205. -/
  exitCode : Int
deriving Repr, DecidableEq

/-- Outcome of `run_command_with_viewer`: completion, or an uncaught
`subprocess.Popen` exception (there is no handler around either spawn), with
the log and console content at the moment of the raise. -/
inductive RunOutcome where
  | done (r : RunResult)
  | viewerSpawnError (logPath : List Char) (log : List Char) (console : List (List Char))
  | commandSpawnError (logPath : List Char) (log : List Char) (console : List (List Char))
deriving Repr, DecidableEq

/-- The `RunResult` of a run in which both spawns succeed. -/
def doneResultOf (env : Env) : RunResult where
  logPath := logPathOf env
  viewerSkip := initial_line_count env.preContent env.readOk
  log := finalLog env
  console := preConsole env ++ [viewerOpenedMsg, completedMsg env.childExit]
  exitCode := env.childExit

/-- The function `run_command_with_viewer` (lines 58-205): resolve the path, count existing
lines, append the header, spawn the viewer, spawn the command, stream its
output, append the footer, return the child's exit code.  A failed spawn
raises out of the function. -/
def run_command_with_viewer (env : Env) : RunOutcome :=
  if env.viewerSpawnOk then
    if env.commandSpawnOk then .done (doneResultOf env)
    else .commandSpawnError (logPathOf env) (logAfterHeader env)
      (preConsole env ++ [viewerOpenedMsg])
  else .viewerSpawnError (logPathOf env) (logAfterHeader env) (preConsole env)

/-- Lines 232-233: `sys.exit(run_command_with_viewer(...))`.  `none` models the
process dying on an uncaught exception instead of reaching `sys.exit`. -/
def mainExitCode (env : Env) : Option Int :=
  match run_command_with_viewer env with
  | .done r => some r.exitCode
  | _ => none

/-! ## Toolkit lemmas about lines, the footer and the stream -/

/-- Well-formed timestamps (as produced by `strftime("%Y%m%d_%H%M%S")`) consist
of digits and underscores. -/
abbrev tsGood (ts : List Char) : Prop := ∀ c ∈ ts, c.isDigit = true ∨ c = '_'

/-- The final log's prefix up to (not including) the last newline of the
header block; the remainder of the log starts at a line boundary. -/
def headerRegion (env : Env) : List Char :=
  preBytes env ++ ("=== Executing PowerShell Command ===".toList ++ '\n' ::
    ("Command: ".toList ++ (env.command ++ '\n' :: ("Log: ".toList
      ++ (logPathOf env ++ '\n' :: ("Started: ".toList
        ++ (env.timestamp ++ '\n' :: (eqLine ++ ['\n']))))))))

/-- Concrete run environment used by witnesses. -/
def sampleEnv : Env where
  cwd := "C:\\work".toList
  command := "npm install".toList
  log_folder := none
  log_file := none
  timestamp := "20260101_120000".toList
  endTimestamp := "20260101_120005".toList
  preContent := none
  readOk := true
  readErrMsg := []
  viewerSpawnOk := true
  commandSpawnOk := true
  childLines := ["hi\n".toList]
  childExit := 0

/-- A run whose viewer `Popen` raises. -/
def viewerFailEnv : Env := { sampleEnv with viewerSpawnOk := false }

/-- A run over an existing but uncountable log file. -/
def readFailEnv : Env :=
  { sampleEnv with
    preContent := some "old line\n".toList
    readOk := false
    readErrMsg := "Permission denied".toList }

/-- A run appending to an existing two-line log file. -/
def appendEnv : Env := { sampleEnv with preContent := some "a\nb\n".toList }

/-! ## Lemmas and claims -/

theorem splitBy_ne_nil (p : Char → Bool) (cs : List Char) : splitBy p cs ≠ [] := by
  cases cs with
  | nil => simp [splitBy]
  | cons c cs =>
    simp only [splitBy]
    repeat' split
    all_goals simp

theorem splitBy_cons_eq (p : Char → Bool) (a : Char) (A m : List Char)
    (ms : List (List Char)) (h : splitBy p A = m :: ms) :
    splitBy p (a :: A) = if p a then [] :: m :: ms else (a :: m) :: ms := by
  simp only [splitBy, h]

theorem splitBy_append (p : Char → Bool) (A B : List Char) (c : Char)
    (hc : p c = true) : splitBy p (A ++ c :: B) = splitBy p A ++ splitBy p B := by
  induction A with
  | nil =>
    rw [List.nil_append]
    cases h : splitBy p B with
    | nil => exact absurd h (splitBy_ne_nil p B)
    | cons l ls => simp [splitBy, h, hc]
  | cons a A ih =>
    rw [List.cons_append]
    cases h : splitBy p A with
    | nil => exact absurd h (splitBy_ne_nil p A)
    | cons l ls =>
      have hmid : splitBy p (A ++ c :: B) = l :: (ls ++ splitBy p B) := by
        rw [ih, h, List.cons_append]
      simp only [splitBy, hmid, h]
      split <;> simp

theorem splitBy_of_no_sep (p : Char → Bool) (A : List Char)
    (h : ∀ c ∈ A, p c = false) : splitBy p A = [A] := by
  induction A with
  | nil => rfl
  | cons a A ih =>
    have ha : p a = false := h a (List.mem_cons_self a A)
    have hA : splitBy p A = [A] := ih fun c hc => h c (List.mem_cons_of_mem a hc)
    simp [splitBy, hA, ha]

theorem mem_of_mem_splitBy (p : Char → Bool) (A l : List Char)
    (hl : l ∈ splitBy p A) {c : Char} (hc : c ∈ l) : c ∈ A := by
  induction A generalizing l with
  | nil =>
    simp only [splitBy, List.mem_singleton] at hl
    subst hl
    simp at hc
  | cons a A ih =>
    cases h : splitBy p A with
    | nil => exact absurd h (splitBy_ne_nil p A)
    | cons m ms =>
      rw [splitBy_cons_eq p a A m ms h] at hl
      split at hl
      · rcases List.mem_cons.mp hl with h1 | h1
        · subst h1; simp at hc
        · exact List.mem_cons_of_mem a (ih l (by rw [h]; exact h1) hc)
      · rcases List.mem_cons.mp hl with h1 | h1
        · subst h1
          rcases List.mem_cons.mp hc with h2 | h2
          · exact h2 ▸ List.mem_cons_self a A
          · exact List.mem_cons_of_mem a
              (ih m (by rw [h]; exact List.mem_cons_self m ms) h2)
        · exact List.mem_cons_of_mem a
            (ih l (by rw [h]; exact List.mem_cons_of_mem m h1) hc)

theorem hasSeqAtStart_append (s t : List Char) : hasSeqAtStart s (s ++ t) = true := by
  induction s with
  | nil => rfl
  | cons a s ih => simp [hasSeqAtStart, ih]

theorem hasSeq_of_start {s l : List Char} (h : hasSeqAtStart s l = true) :
    hasSeq s l = true := by
  cases l with
  | nil =>
    cases s with
    | nil => rfl
    | cons a s => simp [hasSeqAtStart] at h
  | cons b rest => simp [hasSeq, h]

theorem exists_of_start {s l : List Char} (h : hasSeqAtStart s l = true) :
    ∃ t, s ++ t = l := by
  induction s generalizing l with
  | nil => exact ⟨l, rfl⟩
  | cons a s ih =>
    cases l with
    | nil => simp [hasSeqAtStart] at h
    | cons b rest =>
      simp only [hasSeqAtStart, Bool.and_eq_true, decide_eq_true_eq] at h
      obtain ⟨rfl, h2⟩ := h
      obtain ⟨t, ht⟩ := ih h2
      exact ⟨t, by rw [List.cons_append, ht]⟩

theorem hasSeq_iff (s l : List Char) :
    hasSeq s l = true ↔ ∃ u t, u ++ (s ++ t) = l := by
  constructor
  · intro h
    induction l with
    | nil =>
      simp only [hasSeq, decide_eq_true_eq] at h
      exact ⟨[], [], by simp [h]⟩
    | cons b rest ih =>
      simp only [hasSeq, Bool.or_eq_true] at h
      rcases h with h | h
      · obtain ⟨t, ht⟩ := exists_of_start h
        exact ⟨[], t, by simp [ht]⟩
      · obtain ⟨u, t, ht⟩ := ih h
        exact ⟨b :: u, t, by simp [ht]⟩
  · rintro ⟨u, t, rfl⟩
    induction u with
    | nil => exact hasSeq_of_start (hasSeqAtStart_append s t)
    | cons c u ih => simp [hasSeq, ih]

theorem hasSeq_eq_false_of_not_mem {s l : List Char} {c : Char}
    (hc : c ∈ s) (hl : c ∉ l) : hasSeq s l = false := by
  cases hb : hasSeq s l with
  | false => rfl
  | true =>
    obtain ⟨u, t, heq⟩ := (hasSeq_iff s l).mp hb
    exact absurd (heq ▸ List.mem_append_right u (List.mem_append_left t hc)) hl

theorem mem_of_hasSeq {s l : List Char} (h : hasSeq s l = true) {c : Char}
    (hc : c ∈ s) : c ∈ l := by
  obtain ⟨u, t, heq⟩ := (hasSeq_iff s l).mp h
  exact heq ▸ List.mem_append_right u (List.mem_append_left t hc)

theorem not_mem_append_of {c : Char} {A B : List Char} (hA : c ∉ A) (hB : c ∉ B) :
    c ∉ A ++ B := fun h => (List.mem_append.mp h).elim hA hB

theorem not_mem_cons_of {c a : Char} {B : List Char} (h1 : c ≠ a) (hB : c ∉ B) :
    c ∉ a :: B := fun h => (List.mem_cons.mp h).elim h1 hB

theorem digitChar_isDigit (n : Nat) : (digitChar n).isDigit = true := by
  unfold digitChar
  repeat' split
  all_goals decide

theorem natDigitsAux_mem (fuel : Nat) : ∀ n, ∀ c ∈ natDigitsAux fuel n, c.isDigit = true := by
  induction fuel with
  | zero => intro n c hc; simp [natDigitsAux] at hc
  | succ f ih =>
    intro n c hc
    simp only [natDigitsAux] at hc
    split at hc
    · rw [List.mem_singleton] at hc
      exact hc ▸ digitChar_isDigit n
    · rcases List.mem_append.mp hc with h | h
      · exact ih (n / 10) c h
      · rw [List.mem_singleton] at h
        exact h ▸ digitChar_isDigit (n % 10)

theorem natDigits_mem (n : Nat) : ∀ c ∈ natDigits n, c.isDigit = true :=
  natDigitsAux_mem (n + 1) n

theorem intStr_mem (i : Int) : ∀ c ∈ intStr i, c.isDigit = true ∨ c = '-' := by
  intro c hc
  unfold intStr at hc
  split at hc
  · rcases List.mem_cons.mp hc with h | h
    · exact Or.inr h
    · exact Or.inl (natDigits_mem _ c h)
  · exact Or.inl (natDigits_mem _ c hc)

theorem not_mem_intStr {c : Char} (i : Int) (hd : c.isDigit = false) (hm : c ≠ '-') :
    c ∉ intStr i := by
  intro h
  rcases intStr_mem i c h with h1 | h1
  · rw [hd] at h1; exact Bool.noConfusion h1
  · exact hm h1

theorem splitLines_nl_cons (B : List Char) :
    splitLines ('\n' :: B) = [] :: splitLines B := by
  unfold splitLines
  cases h : splitBy (fun c => decide (c = '\n')) B with
  | nil => exact absurd h (splitBy_ne_nil _ B)
  | cons l ls => rw [splitBy_cons_eq _ _ _ _ _ h, if_pos (by simp)]

theorem splitLines_append_nl (A B : List Char) :
    splitLines (A ++ '\n' :: B) = splitLines A ++ splitLines B :=
  splitBy_append _ A B '\n' (by simp)

theorem splitLines_of_no_nl {A : List Char} (h : '\n' ∉ A) : splitLines A = [A] :=
  splitBy_of_no_sep _ A fun c hc => decide_eq_false fun he => h (he ▸ hc)

theorem splitLines_line {A : List Char} (B : List Char) (h : '\n' ∉ A) :
    splitLines (A ++ '\n' :: B) = A :: splitLines B := by
  rw [splitLines_append_nl, splitLines_of_no_nl h, List.singleton_append]

theorem mem_of_mem_splitLines {A l : List Char} (hl : l ∈ splitLines A)
    {c : Char} (hc : c ∈ l) : c ∈ A :=
  mem_of_mem_splitBy _ A l hl hc

theorem countP_splitLines_append (q : List Char → Bool) (A B : List Char) :
    (splitLines (A ++ '\n' :: B)).countP q
      = (splitLines A).countP q + (splitLines B).countP q := by
  rw [splitLines_append_nl, List.countP_append]

/-- Any line predicate that forces a `'['` in the line counts zero over the
lines of bracket-free text. -/
theorem countP_splitLines_zero {X : List Char} (hX : '[' ∉ X)
    {q : List Char → Bool} (hq : ∀ l, q l = true → '[' ∈ l) :
    (splitLines X).countP q = 0 := by
  refine List.countP_eq_zero.mpr fun l hl hql => ?_
  exact hX (mem_of_mem_splitLines hl (hq l hql))

theorem bracket_of_success {l : List Char} (h : isSuccessLine l = true) : '[' ∈ l :=
  mem_of_hasSeq h (by decide)

theorem bracket_of_error {l : List Char} (h : isErrorLine l = true) : '[' ∈ l :=
  mem_of_hasSeq h (by decide)

theorem bracket_of_sentinel {l : List Char} (h : isSentinelLine l = true) : '[' ∈ l := by
  rcases Bool.or_eq_true _ _ |>.mp h with h1 | h1
  · exact bracket_of_success h1
  · exact bracket_of_error h1

theorem sentinel_false_of_no_bracket {l : List Char} (h : '[' ∉ l) :
    isSuccessLine l = false ∧ isErrorLine l = false ∧ isSentinelLine l = false := by
  have hs : isSuccessLine l = false := hasSeq_eq_false_of_not_mem (by decide) h
  have he : isErrorLine l = false := hasSeq_eq_false_of_not_mem (by decide) h
  exact ⟨hs, he, by simp [isSentinelLine, hs, he]⟩

theorem tsGood_not_mem {ts : List Char} (h : tsGood ts) {c : Char}
    (hd : c.isDigit = false) (hu : c ≠ '_') : c ∉ ts := by
  intro hm
  rcases h c hm with h1 | h1
  · rw [hd] at h1; exact Bool.noConfusion h1
  · exact hu h1

theorem nl_not_mem_intStr (i : Int) : '\n' ∉ intStr i :=
  not_mem_intStr i (by decide) (by decide)

theorem bracket_not_mem_intStr (i : Int) : '[' ∉ intStr i :=
  not_mem_intStr i (by decide) (by decide)

theorem sentinelLineOf_no_nl (rc : Int) : '\n' ∉ sentinelLineOf rc := by
  unfold sentinelLineOf
  split
  · decide
  · intro hm
    rcases List.mem_append.mp hm with hm1 | hm1
    · rcases List.mem_append.mp hm1 with hm2 | hm2
      · exact absurd hm2 (by decide)
      · exact absurd hm2 (nl_not_mem_intStr rc)
    · exact absurd hm1 (by decide)

/-- The lines of the footer block. -/
theorem splitLines_footerText (rc : Int) (ts : List Char) (hts : '\n' ∉ ts) :
    splitLines (footerText rc ts) =
      [[], [], eqLine, "=== Execution completed ===".toList,
       "Ended: ".toList ++ ts, "Exit code: ".toList ++ intStr rc, eqLine, [],
       sentinelLineOf rc, []] := by
  have h2 : '\n' ∉ "Ended: ".toList ++ ts := not_mem_append_of (by decide) hts
  have h3 : '\n' ∉ "Exit code: ".toList ++ intStr rc :=
    not_mem_append_of (by decide) (nl_not_mem_intStr rc)
  have e : footerText rc ts =
      '\n' :: '\n' :: (eqLine ++ '\n' :: ("=== Execution completed ===".toList ++ '\n' ::
        (("Ended: ".toList ++ ts) ++ '\n' :: (("Exit code: ".toList ++ intStr rc) ++ '\n' ::
        (eqLine ++ '\n' :: ('\n' :: (sentinelLineOf rc ++ '\n' :: ([] : List Char)))))))) := by
    simp [footerText, List.append_assoc]
  rw [e, splitLines_nl_cons, splitLines_nl_cons,
    splitLines_line _ (by decide),
    splitLines_line _ (by decide),
    splitLines_line _ h2,
    splitLines_line _ h3,
    splitLines_line _ (by decide),
    splitLines_nl_cons,
    splitLines_line _ (sentinelLineOf_no_nl rc)]
  rfl

/-- The lines of the streamed region followed by anything: exactly the emitted
lines (without their terminators), in order, then the lines of the rest. -/
theorem splitLines_streamOutput_append (ls : List (List Char)) (R : List Char)
    (h : ∀ l ∈ ls, ∃ b, l = b ++ ['\n'] ∧ '\n' ∉ b) :
    splitLines (streamOutput ls ++ R)
      = ls.map (fun l => l.dropLast) ++ splitLines R := by
  induction ls with
  | nil => simp [streamOutput]
  | cons l rest ih =>
    obtain ⟨b, hb, hnb⟩ := h l (List.mem_cons_self l rest)
    have hne : ¬(l = []) := by simp [hb]
    have hrec := ih fun m hm => h m (List.mem_cons_of_mem l hm)
    have hshape : streamOutput (l :: rest) ++ R
        = b ++ '\n' :: (streamOutput rest ++ R) := by
      simp only [streamOutput, if_neg hne, hb]
      simp [List.append_assoc]
    rw [hshape, splitLines_line _ hnb, hrec, List.map_cons, hb,
      List.dropLast_concat, List.cons_append]

theorem streamOutput_flatten (ls : List (List Char)) (h : ∀ l ∈ ls, l ≠ []) :
    streamOutput ls = ls.flatten := by
  induction ls with
  | nil => rfl
  | cons l rest ih =>
    have hne : ¬(l = []) := h l (List.mem_cons_self l rest)
    simp only [streamOutput, if_neg hne, List.flatten_cons]
    rw [ih fun m hm => h m (List.mem_cons_of_mem l hm)]

/-- Eliminating a completed run. -/
theorem run_done_elim {env : Env} {r : RunResult}
    (h : run_command_with_viewer env = .done r) : r = doneResultOf env := by
  unfold run_command_with_viewer at h
  split at h
  · split at h
    · injection h with h2
      exact h2.symm
    · simp at h
  · simp at h

theorem ts_no_nl {ts : List Char} (hts : tsGood ts) : '\n' ∉ ts :=
  tsGood_not_mem hts (by decide) (by decide)

theorem ts_no_bracket {ts : List Char} (hts : tsGood ts) : '[' ∉ ts :=
  tsGood_not_mem hts (by decide) (by decide)

theorem sentinelLineOf_success (rc : Int) (h0 : rc = 0) :
    isSuccessLine (sentinelLineOf rc) = true ∧
    isErrorLine (sentinelLineOf rc) = false := by
  subst h0
  constructor <;> decide

theorem sentinelLineOf_error (rc : Int) (h0 : ¬(rc = 0)) :
    isErrorLine (sentinelLineOf rc) = true ∧
    isSuccessLine (sentinelLineOf rc) = false ∧
    hasSeq (intStr rc) (sentinelLineOf rc) = true := by
  unfold sentinelLineOf
  rw [if_neg h0]
  refine ⟨?_, ?_, ?_⟩
  · rfl
  · refine hasSeq_eq_false_of_not_mem (c := 'U') (by decide) ?_
    intro hm
    rcases List.mem_append.mp hm with hm1 | hm1
    · rcases List.mem_append.mp hm1 with hm2 | hm2
      · exact absurd hm2 (by decide)
      · exact absurd hm2 (not_mem_intStr rc (by decide) (by decide))
    · exact absurd hm1 (by decide)
  · exact (hasSeq_iff _ _).mpr
      ⟨"[ERROR] Command failed with exit code ".toList, ['.'], by rw [List.append_assoc]⟩

theorem sentinelLineOf_is_sentinel (rc : Int) :
    isSentinelLine (sentinelLineOf rc) = true := by
  by_cases h0 : rc = 0
  · simp [isSentinelLine, (sentinelLineOf_success rc h0).1]
  · simp [isSentinelLine, (sentinelLineOf_error rc h0).1]

/-- Counting sentinel-shaped lines in the footer block: exactly one, of the
kind selected by the exit code, and when the exit code is non-zero that line
also carries its decimal rendering. -/
theorem footer_counts (rc : Int) (ts : List Char) (hts : tsGood ts) :
    (splitLines (footerText rc ts)).countP isSentinelLine = 1 ∧
    (splitLines (footerText rc ts)).countP isSuccessLine = (if rc = 0 then 1 else 0) ∧
    (splitLines (footerText rc ts)).countP isErrorLine = (if rc = 0 then 0 else 1) ∧
    (¬(rc = 0) → (splitLines (footerText rc ts)).countP
        (fun l => isErrorLine l && hasSeq (intStr rc) l) = 1) := by
  have hended : '[' ∉ "Ended: ".toList ++ ts :=
    not_mem_append_of (by decide) (ts_no_bracket hts)
  have hexit : '[' ∉ "Exit code: ".toList ++ intStr rc :=
    not_mem_append_of (by decide) (bracket_not_mem_intStr rc)
  obtain ⟨he1, he2, he3⟩ := sentinel_false_of_no_bracket hended
  obtain ⟨hx1, hx2, hx3⟩ := sentinel_false_of_no_bracket hexit
  have hA1 : isSuccessLine ([] : List Char) = false := by decide
  have hA2 : isErrorLine ([] : List Char) = false := by decide
  have hA3 : isSentinelLine ([] : List Char) = false := by decide
  have hB1 : isSuccessLine eqLine = false := by decide
  have hB2 : isErrorLine eqLine = false := by decide
  have hB3 : isSentinelLine eqLine = false := by decide
  have hC1 : isSuccessLine "=== Execution completed ===".toList = false := by decide
  have hC2 : isErrorLine "=== Execution completed ===".toList = false := by decide
  have hC3 : isSentinelLine "=== Execution completed ===".toList = false := by decide
  rw [splitLines_footerText rc ts (ts_no_nl hts)]
  by_cases h0 : rc = 0
  · obtain ⟨hs1, hs2⟩ := sentinelLineOf_success rc h0
    have hsent := sentinelLineOf_is_sentinel rc
    refine ⟨?_, ?_, ?_, fun hn => absurd h0 hn⟩ <;>
    · simp only [List.countP_cons, List.countP_nil, hA1, hA2, hA3, hB1, hB2, hB3,
        hC1, hC2, hC3, he1, he2, he3, hx1, hx2, hx3, hs1, hs2, hsent]
      simp [h0]
  · obtain ⟨hs1, hs2, hs3⟩ := sentinelLineOf_error rc h0
    have hsent := sentinelLineOf_is_sentinel rc
    refine ⟨?_, ?_, ?_, fun _ => ?_⟩ <;>
    · simp only [List.countP_cons, List.countP_nil, hA1, hA2, hA3, hB1, hB2, hB3,
        hC1, hC2, hC3, he1, he2, he3, hx1, hx2, hx3, hs1, hs2, hs3, hsent]
      simp [h0]

theorem isDriveRest_append {rest : List Char} (h : isDriveRest rest = true)
    (B : List Char) : isDriveRest (rest ++ B) = true := by
  cases rest with
  | nil => simp [isDriveRest] at h
  | cons r rest2 => simpa [isDriveRest] using h

theorem isAbsolutePath_append {A : List Char} (h : isAbsolutePath A = true)
    (B : List Char) : isAbsolutePath (A ++ B) = true := by
  cases A with
  | nil => simp [isAbsolutePath] at h
  | cons c rest =>
    rw [List.cons_append]
    simp only [isAbsolutePath, Bool.or_eq_true, Bool.and_eq_true] at h ⊢
    rcases h with h | ⟨h1, h2⟩
    · exact Or.inl h
    · exact Or.inr ⟨h1, isDriveRest_append h2 B⟩

theorem headerText_shape (c p t : List Char) :
    headerText c p t =
      ("=== Executing PowerShell Command ===".toList ++ '\n' ::
        ("Command: ".toList ++ (c ++ '\n' :: ("Log: ".toList ++ p))))
      ++ '\n' :: (("Started: ".toList ++ t) ++ '\n' :: (eqLine ++ ['\n', '\n'])) := by
  simp [headerText, List.append_assoc]

theorem finalLog_shape (env : Env) :
    finalLog env = headerRegion env
      ++ '\n' :: (streamOutput env.childLines
        ++ footerText env.childExit env.endTimestamp) := by
  simp [finalLog, logAfterHeader, headerText, headerRegion, List.append_assoc]

theorem headerRegion_no_bracket (env : Env) (hpre : '[' ∉ preBytes env)
    (hcmd : '[' ∉ env.command) (hpath : '[' ∉ logPathOf env)
    (hts : tsGood env.timestamp) : '[' ∉ headerRegion env := by
  refine not_mem_append_of hpre ?_
  refine not_mem_append_of (by decide) ?_
  refine not_mem_cons_of (by decide) ?_
  refine not_mem_append_of (by decide) ?_
  refine not_mem_append_of hcmd ?_
  refine not_mem_cons_of (by decide) ?_
  refine not_mem_append_of (by decide) ?_
  refine not_mem_append_of hpath ?_
  refine not_mem_cons_of (by decide) ?_
  refine not_mem_append_of (by decide) ?_
  refine not_mem_append_of (ts_no_bracket hts) ?_
  refine not_mem_cons_of (by decide) ?_
  exact not_mem_append_of (by decide) (by decide)

theorem stream_lines_not_sentinel {ls : List (List Char)}
    (h : ∀ l ∈ ls, ∃ b, l = b ++ ['\n'] ∧ '\n' ∉ b ∧ isSentinelLine b = false) :
    ∀ b2 ∈ ls.map (fun l => l.dropLast),
      isSentinelLine b2 = false ∧ isSuccessLine b2 = false ∧ isErrorLine b2 = false := by
  intro b2 hb2
  obtain ⟨l, hl, hmap⟩ := List.mem_map.mp hb2
  obtain ⟨b, hb, hnb, hsb⟩ := h l hl
  have hdb : l.dropLast = b := by rw [hb, List.dropLast_concat]
  rw [← hmap, hdb]
  have hor := hsb
  rw [isSentinelLine, Bool.or_eq_false_iff] at hor
  exact ⟨hsb, hor.1, hor.2⟩

theorem mem_of_mem_dropWhile {p : Char → Bool} {l : List Char} {c : Char}
    (h : c ∈ l.dropWhile p) : c ∈ l := by
  induction l with
  | nil => simp [List.dropWhile] at h
  | cons a l ih =>
    rw [List.dropWhile_cons] at h
    split at h
    · exact List.mem_cons_of_mem a (ih h)
    · exact h

theorem length_dropWhile_le (p : Char → Bool) (l : List Char) :
    (l.dropWhile p).length ≤ l.length := by
  induction l with
  | nil => simp [List.dropWhile]
  | cons a l ih =>
    rw [List.dropWhile_cons]
    split
    · exact Nat.le_succ_of_le ih
    · exact Nat.le_refl _

theorem mem_of_mem_stripUnderscores {s : List Char} {c : Char}
    (h : c ∈ stripUnderscores s) : c ∈ s := by
  unfold stripUnderscores at h
  rw [List.mem_reverse] at h
  have h2 := mem_of_mem_dropWhile h
  rw [List.mem_reverse] at h2
  exact mem_of_mem_dropWhile h2

theorem stripUnderscores_length (s : List Char) :
    (stripUnderscores s).length ≤ s.length := by
  unfold stripUnderscores
  rw [List.length_reverse]
  refine le_trans (length_dropWhile_le _ _) ?_
  rw [List.length_reverse]
  exact length_dropWhile_le _ _

theorem sanitizeChars_good (s : List Char) : ∀ c ∈ sanitizeChars s, goodChar c = true := by
  intro c hc
  obtain ⟨a, ha, hv⟩ := List.mem_map.mp hc
  by_cases hg : goodChar a = true
  · rw [if_pos hg] at hv
    exact hv ▸ hg
  · rw [if_neg hg] at hv
    exact hv ▸ (by decide)

theorem goodChar_cases {c : Char} (h : goodChar c = true) :
    c.isAlpha = true ∨ c.isDigit = true ∨ c = '_' ∨ c = '-' := by
  simp only [goodChar, Bool.or_eq_true, decide_eq_true_eq] at h
  tauto

/-- C2: for every executed command, the value returned by
`run_command_with_viewer` equals the child process's exit code, and the
tool's own `sys.exit` argument equals that same value. -/
theorem exit_code_mirrors_child (env : Env) (r : RunResult)
    (h : run_command_with_viewer env = .done r) :
    r.exitCode = env.childExit ∧ mainExitCode env = some env.childExit := by
  have hr := run_done_elim h
  subst hr
  exact ⟨by simp [doneResultOf], by simp [mainExitCode, h, doneResultOf]⟩

/-- C2 witness at a concrete run. -/
theorem exit_code_mirrors_child_w :
    (doneResultOf sampleEnv).exitCode = sampleEnv.childExit ∧
    mainExitCode sampleEnv = some sampleEnv.childExit :=
  exit_code_mirrors_child sampleEnv (doneResultOf sampleEnv) rfl

/-- C4: the skip offset passed to the viewer is `initial_line_count`, computed
from the log file's content as it exists before this run appends anything
(`countFileLines` of the pre-run bytes), and it depends on nothing else in the
run: two completed runs over the same pre-run state use the same offset. -/
theorem skip_offset_captured_once (env : Env) (r : RunResult)
    (h : run_command_with_viewer env = .done r) :
    r.viewerSkip = initial_line_count env.preContent env.readOk ∧
    (∀ cs, env.preContent = some cs → env.readOk = true →
      r.viewerSkip = countFileLines cs) ∧
    (∀ env2 r2, run_command_with_viewer env2 = .done r2 →
      env2.preContent = env.preContent → env2.readOk = env.readOk →
      r2.viewerSkip = r.viewerSkip) := by
  have hr := run_done_elim h
  subst hr
  refine ⟨rfl, ?_, ?_⟩
  · intro cs hpre hro
    simp [doneResultOf, initial_line_count, hpre, hro]
  · intro env2 r2 h2 hpre hro
    have hr2 := run_done_elim h2
    subst hr2
    simp [doneResultOf, hpre, hro]

/-- C4 witness: appending to a two-line log, the skip offset is that file's
line count. -/
theorem skip_offset_captured_once_w :
    (doneResultOf appendEnv).viewerSkip = countFileLines "a\nb\n".toList :=
  (skip_offset_captured_once appendEnv (doneResultOf appendEnv) rfl).2.1
    "a\nb\n".toList rfl rfl

/-- C5 counterexample: with the viewer spawn failing, the run does not proceed
to execute the command — the outcome is the propagated spawn exception, with
only the header in the log, and the tool never reaches `sys.exit`. -/
theorem viewer_spawn_failure_cex :
    run_command_with_viewer viewerFailEnv =
      .viewerSpawnError (logPathOf viewerFailEnv) (logAfterHeader viewerFailEnv)
        (preConsole viewerFailEnv) ∧
    mainExitCode viewerFailEnv = none := ⟨rfl, rfl⟩

/-- C5 (amended): if spawning the viewer fails, the exception propagates
uncaught — the run aborts after the header is written, without a warning and
without executing the command. -/
theorem viewer_spawn_failure_fatal (env : Env) (h : env.viewerSpawnOk = false) :
    run_command_with_viewer env =
      .viewerSpawnError (logPathOf env) (logAfterHeader env) (preConsole env) := by
  unfold run_command_with_viewer
  rw [h]
  simp

/-- C5 witness. -/
theorem viewer_spawn_failure_fatal_w :
    viewerFailEnv.viewerSpawnOk = false ∧
    run_command_with_viewer viewerFailEnv =
      .viewerSpawnError (logPathOf viewerFailEnv) (logAfterHeader viewerFailEnv)
        (preConsole viewerFailEnv) :=
  ⟨rfl, viewer_spawn_failure_fatal viewerFailEnv rfl⟩

/-- C10: if the log file exists but counting its lines fails, the run still
completes, with skip offset 0 and the warning on the console. -/
theorem count_failure_nonfatal (env : Env) (cs : List Char)
    (hpre : env.preContent = some cs) (hread : env.readOk = false)
    (hv : env.viewerSpawnOk = true) (hc : env.commandSpawnOk = true) :
    ∃ r, run_command_with_viewer env = .done r ∧ r.viewerSkip = 0 ∧
      countWarningMsg env.readErrMsg ∈ r.console ∧ r.log = finalLog env := by
  refine ⟨doneResultOf env, ?_, ?_, ?_, rfl⟩
  · unfold run_command_with_viewer
    rw [hv, hc]
    simp
  · simp [doneResultOf, initial_line_count, hpre, hread]
  · simp [doneResultOf, preConsole, countConsole, hpre, hread]

/-- C10 witness. -/
theorem count_failure_nonfatal_w :
    ∃ r, run_command_with_viewer readFailEnv = .done r ∧ r.viewerSkip = 0 ∧
      countWarningMsg readFailEnv.readErrMsg ∈ r.console ∧
      r.log = finalLog readFailEnv :=
  count_failure_nonfatal readFailEnv "old line\n".toList rfl rfl rfl rfl

/-- C3: streaming writes every child line verbatim (their concatenation) and
the streamed region, read back as lines, is exactly the emitted lines in
emission order; the streamed region sits between header and footer in the
completed log. -/
theorem stream_lines_order (ls : List (List Char))
    (h : ∀ l ∈ ls, ∃ b, l = b ++ ['\n'] ∧ '\n' ∉ b) :
    streamOutput ls = ls.flatten ∧
    splitLines (streamOutput ls) = ls.map (fun l => l.dropLast) ++ [[]] ∧
    (∀ env, env.childLines = ls →
      finalLog env = logAfterHeader env ++ streamOutput ls
        ++ footerText env.childExit env.endTimestamp) := by
  refine ⟨?_, ?_, ?_⟩
  · refine streamOutput_flatten ls fun l hl => ?_
    obtain ⟨b, hb, -⟩ := h l hl
    simp [hb]
  · have h2 := splitLines_streamOutput_append ls [] h
    rw [List.append_nil] at h2
    rw [h2]
    rfl
  · intro env he
    simp only [finalLog, he]

/-- C3 witness at a concrete two-line stream. -/
theorem stream_lines_order_w :
    streamOutput ["ab\n".toList, "c\n".toList] = [ "ab\n".toList, "c\n".toList].flatten ∧
    splitLines (streamOutput ["ab\n".toList, "c\n".toList])
      = ["ab".toList, "c".toList, []] := by
  have h := stream_lines_order ["ab\n".toList, "c\n".toList] (by
    intro l hl
    rcases List.mem_cons.mp hl with h1 | h1
    · exact ⟨"ab".toList, by rw [h1]; rfl, by decide⟩
    · rw [List.mem_singleton] at h1
      exact ⟨"c".toList, by rw [h1]; rfl, by decide⟩)
  exact ⟨h.1, by rw [h.2.1]; rfl⟩

/-- C7: a supplied log-path argument whose final segment contains a dot is
used as the exact log file target (no synthesized name); otherwise it is a
target folder and the filename is synthesized inside it. -/
theorem log_path_dispatch (cwd lp cmd ts : List Char)
    (hcwd : isAbsolutePath cwd = true) :
    ('.' ∈ pathName lp →
      parseArgs (some lp) = (none, some lp) ∧
      logFilePathFor cwd cmd ts none (some lp) = resolvePath cwd lp) ∧
    ('.' ∉ pathName lp →
      parseArgs (some lp) = (some lp, none) ∧
      logFilePathFor cwd cmd ts (some lp) none =
        resolvePath cwd lp ++ '\\' :: log_filename cmd ts) := by
  have hres : ∀ X : List Char, isAbsolutePath X = true → resolvePath cwd X = X := by
    intro X hX
    unfold resolvePath
    rw [if_pos hX]
  have habs : ∀ q : List Char, isAbsolutePath (resolvePath cwd q) = true := by
    intro q
    unfold resolvePath
    split
    · assumption
    · exact isAbsolutePath_append hcwd _
  constructor
  · intro hdot
    exact ⟨by simp [parseArgs, hdot], rfl⟩
  · intro hdot
    refine ⟨by simp [parseArgs, hdot], ?_⟩
    show resolvePath cwd (resolvePath cwd lp ++ '\\' :: log_filename cmd ts) = _
    exact hres _ (isAbsolutePath_append (habs lp) _)

/-- C7 witness: a dotted argument is taken as the exact file, an undotted one
as a folder with a synthesized name. -/
theorem log_path_dispatch_w :
    (parseArgs (some "C:\\tmp\\run.log".toList)
        = (none, some "C:\\tmp\\run.log".toList) ∧
      logFilePathFor "C:\\work".toList "npm install".toList "20260101_120000".toList
          none (some "C:\\tmp\\run.log".toList)
        = resolvePath "C:\\work".toList "C:\\tmp\\run.log".toList) ∧
    (parseArgs (some "C:\\tmp\\runs".toList)
        = (some "C:\\tmp\\runs".toList, none) ∧
      logFilePathFor "C:\\work".toList "npm install".toList "20260101_120000".toList
          (some "C:\\tmp\\runs".toList) none
        = resolvePath "C:\\work".toList "C:\\tmp\\runs".toList
            ++ '\\' :: log_filename "npm install".toList "20260101_120000".toList) :=
  ⟨(log_path_dispatch "C:\\work".toList "C:\\tmp\\run.log".toList _ _ (by decide)).1
      (by decide),
   (log_path_dispatch "C:\\work".toList "C:\\tmp\\runs".toList _ _ (by decide)).2
      (by decide)⟩

/-- Appending a separator and a name before resolving keeps the name as the
final segment, whatever the resolution prepends. -/
theorem resolvePath_tail (cwd X name : List Char) :
    ∃ d, resolvePath cwd (X ++ '\\' :: name) = d ++ '\\' :: name := by
  unfold resolvePath
  split
  · exact ⟨X, rfl⟩
  · exact ⟨cwd ++ '\\' :: X, by simp [List.append_assoc]⟩

/-- C6: `extract_command_name` is deterministic and always returns a non-empty
identifier of at most 30 characters drawn from `[A-Za-z0-9_-]`, falling back
to the fixed token `"command"` when sanitization leaves nothing. -/
theorem extract_command_name_sound (command : List Char) :
    (∀ c2, command = c2 → extract_command_name command = extract_command_name c2) ∧
    (∀ c ∈ extract_command_name command,
      c.isAlpha = true ∨ c.isDigit = true ∨ c = '_' ∨ c = '-') ∧
    (extract_command_name command).length ≤ 30 ∧
    extract_command_name command ≠ [] ∧
    (safeStage command = [] → extract_command_name command = "command".toList) := by
  refine ⟨fun c2 h => by rw [h], ?_, ?_, ?_,
    fun h => by rw [extract_command_name, if_pos h]⟩
  · intro c hc
    rw [extract_command_name] at hc
    split at hc
    · have hall : ∀ c ∈ "command".toList, c.isAlpha = true := by decide
      exact Or.inl (hall c hc)
    · have h1 : c ∈ (sanitizeChars (nameStage command)).take 30 :=
        mem_of_mem_stripUnderscores hc
      have h2 : c ∈ sanitizeChars (nameStage command) := List.take_subset _ _ h1
      exact goodChar_cases (sanitizeChars_good _ c h2)
  · rw [extract_command_name]
    split
    · decide
    · refine le_trans (stripUnderscores_length _) ?_
      exact List.length_take_le _ _
  · rw [extract_command_name]
    split
    · decide
    · assumption

/-- C6 witness. -/
theorem extract_command_name_sound_w :
    extract_command_name "npm install".toList = extract_command_name "npm install".toList ∧
    extract_command_name "npm install".toList ≠ [] :=
  ⟨(extract_command_name_sound "npm install".toList).1 _ rfl,
   (extract_command_name_sound "npm install".toList).2.2.2.1⟩

/-- C8: the worked examples — a path-like first token is reduced to its stem,
a bare command token is kept up to the first separator. -/
theorem extract_command_name_examples :
    extract_command_name "../bar/foo.ps1 -x".toList = "foo".toList ∧
    extract_command_name "Get-Process | Where CPU -gt 100".toList
      = "Get-Process".toList := by
  constructor <;> decide

/-- C9: with no explicit log file, the synthesized filename is exactly
`"log_" ++ extract_command_name(command) ++ "_" ++ timestamp ++ ".log"`, that
filename ends the resolved log path, and the very same timestamp value is the
one on the header's `Started:` line. -/
theorem synthesized_filename_timestamp (env : Env) (hfile : env.log_file = none)
    (hts : '\n' ∉ env.timestamp) :
    log_filename env.command env.timestamp =
      "log_".toList ++ extract_command_name env.command ++ "_".toList
        ++ env.timestamp ++ ".log".toList ∧
    (∃ dir, logPathOf env = dir ++ '\\' :: log_filename env.command env.timestamp) ∧
    ("Started: ".toList ++ env.timestamp)
      ∈ splitLines (headerText env.command (logPathOf env) env.timestamp) := by
  refine ⟨by simp [log_filename, List.append_assoc], ?_, ?_⟩
  · unfold logPathOf logFilePathFor
    rw [hfile]
    exact resolvePath_tail env.cwd _ _
  · have hstart : '\n' ∉ "Started: ".toList ++ env.timestamp :=
      not_mem_append_of (by decide) hts
    rw [headerText_shape, splitLines_append_nl, splitLines_line _ hstart]
    exact List.mem_append_right _ (List.mem_cons_self _ _)

/-- C9 witness. -/
theorem synthesized_filename_timestamp_w :
    (∃ dir, logPathOf sampleEnv
      = dir ++ '\\' :: log_filename sampleEnv.command sampleEnv.timestamp) ∧
    ("Started: ".toList ++ sampleEnv.timestamp)
      ∈ splitLines (headerText sampleEnv.command (logPathOf sampleEnv)
          sampleEnv.timestamp) :=
  ⟨(synthesized_filename_timestamp sampleEnv rfl (by decide)).2.1,
   (synthesized_filename_timestamp sampleEnv rfl (by decide)).2.2⟩

/-- C1: the footer phase appends exactly one sentinel line — of kind SUCCESS
when the exit code is 0, of kind ERROR carrying the exit code otherwise — and
hence a completed run whose pre-existing log content, command text, log path
and child output are free of sentinel material has exactly one sentinel line
of the matching kind in its log file. -/
theorem footer_sentinel_unique (rc : Int) (ts : List Char) (hts : tsGood ts) :
    ((splitLines (footerText rc ts)).countP isSentinelLine = 1 ∧
     (rc = 0 → (splitLines (footerText rc ts)).countP isSuccessLine = 1 ∧
       (splitLines (footerText rc ts)).countP isErrorLine = 0) ∧
     (¬(rc = 0) → (splitLines (footerText rc ts)).countP
         (fun l => isErrorLine l && hasSeq (intStr rc) l) = 1 ∧
       (splitLines (footerText rc ts)).countP isSuccessLine = 0)) ∧
    (∀ env r, run_command_with_viewer env = .done r →
      env.childExit = rc → env.endTimestamp = ts →
      '[' ∉ preBytes env → '[' ∉ env.command → '[' ∉ logPathOf env →
      tsGood env.timestamp →
      (∀ l ∈ env.childLines, ∃ b, l = b ++ ['\n'] ∧ '\n' ∉ b ∧
        isSentinelLine b = false) →
      ((splitLines r.log).countP isSentinelLine = 1 ∧
       (rc = 0 → (splitLines r.log).countP isSuccessLine = 1) ∧
       (¬(rc = 0) → (splitLines r.log).countP
           (fun l => isErrorLine l && hasSeq (intStr rc) l) = 1))) := by
  obtain ⟨f1, f2, f3, f4⟩ := footer_counts rc ts hts
  refine ⟨⟨f1, fun h0 => ⟨?_, ?_⟩, fun h0 => ⟨f4 h0, ?_⟩⟩, ?_⟩
  · rw [f2, if_pos h0]
  · rw [f3, if_pos h0]
  · rw [f2, if_neg h0]
  · intro env r hrun hrc hets hpre hcmd hpath htsenv hlines
    subst hrc
    subst hets
    have hr := run_done_elim hrun
    subst hr
    have hstream : ∀ l ∈ env.childLines, ∃ b, l = b ++ ['\n'] ∧ '\n' ∉ b := by
      intro l hl
      obtain ⟨b, hb, hnb, -⟩ := hlines l hl
      exact ⟨b, hb, hnb⟩
    have hmap := stream_lines_not_sentinel hlines
    have hreg := headerRegion_no_bracket env hpre hcmd hpath htsenv
    have hdecomp : splitLines (finalLog env)
        = splitLines (headerRegion env)
          ++ (env.childLines.map (fun l => l.dropLast)
              ++ splitLines (footerText env.childExit env.endTimestamp)) := by
      rw [finalLog_shape env, splitLines_append_nl,
        splitLines_streamOutput_append _ _ hstream]
    have key : ∀ q : List Char → Bool, (∀ l, q l = true → '[' ∈ l) →
        (∀ b2 ∈ env.childLines.map (fun l => l.dropLast), q b2 = false) →
        (splitLines (finalLog env)).countP q
          = (splitLines (footerText env.childExit env.endTimestamp)).countP q := by
      intro q hq hzero
      rw [hdecomp, List.countP_append, List.countP_append,
        countP_splitLines_zero hreg hq,
        List.countP_eq_zero.mpr (fun b2 hb2 => by simp [hzero b2 hb2])]
      simp
    have hlogeq : (doneResultOf env).log = finalLog env := rfl
    refine ⟨?_, fun h0 => ?_, fun h0 => ?_⟩
    · rw [hlogeq, key isSentinelLine (fun l hl => bracket_of_sentinel hl)
        (fun b2 hb2 => (hmap b2 hb2).1)]
      exact f1
    · rw [hlogeq, key isSuccessLine (fun l hl => bracket_of_success hl)
        (fun b2 hb2 => (hmap b2 hb2).2.1), f2, if_pos h0]
    · rw [hlogeq, key _
        (fun l hl => bracket_of_error (Bool.and_eq_true _ _ |>.mp hl).1)
        (fun b2 hb2 => by simp [(hmap b2 hb2).2.2])]
      exact f4 h0

/-- C1 witness: a successful concrete run. -/
theorem footer_sentinel_unique_w :
    (splitLines (footerText 0 "20260101_120005".toList)).countP isSentinelLine = 1 ∧
    (splitLines (footerText 0 "20260101_120005".toList)).countP isSuccessLine = 1 ∧
    (splitLines (doneResultOf sampleEnv).log).countP isSentinelLine = 1 := by
  have h := footer_sentinel_unique 0 "20260101_120005".toList (by decide)
  refine ⟨h.1.1, (h.1.2.1 rfl).1, ?_⟩
  refine (h.2 sampleEnv (doneResultOf sampleEnv) rfl rfl rfl (by decide) (by decide)
    (by decide) (by decide) ?_).1
  intro l hl
  have hcl : sampleEnv.childLines = ["hi\n".toList] := rfl
  rw [hcl, List.mem_singleton] at hl
  exact ⟨"hi".toList, by rw [hl]; rfl, by decide, by decide⟩
